import Mathlib

/-!
Verification of the drawing-language lexer (src/parse/lex.go).

The lexer is embedded shallowly: the rune source (io.RuneScanner) is a
`List Char`; reading a rune pops the head, end of input yields the rune 0
(as in the source's nextRune), and UnreadRune is modelled by resuming from
the state that existed before the read (Go's strings.Reader restores the
pre-read position; at end of input UnreadRune fails and is ignored by the
source, which coincides with restoring the unchanged empty state).
Go panics are modelled as `Except` errors carrying the formatted argument.
-/

namespace DrawParse

/-- TokenType describes the types of tokens to lex (the Go `TokenType` enum). -/
inductive TokenType
  | Eol
  | Percent
  | AssignModulus
  | OParens
  | CParens
  | Star
  | AssignMultiply
  | Plus
  | AssignAdd
  | Increment
  | Comma
  | Minus
  | AssignSubtract
  | Decrement
  | Slash
  | AssignDivide
  | Colon
  | LessThan
  | Equals
  | GreaterThan
  | OBracket
  | CBracket
  | OBrace
  | CBrace
  | Eof
  | Undefined
  | Colour
  | FloatNumber
  | IntNumber
  | Name
  | Str
deriving DecidableEq, Repr

/-- LexToken describes a single token, as a TokenType and a string of characters. -/
structure LexToken where
  tokenType : TokenType
  token : String
deriving DecidableEq, Repr

/-- Errors raised (as panics in the Go source); each carries the formatted
string argument of its error message where the message has one. -/
inductive LexErr
  | invalidUnicodeEscape (chars : String)
  | invalidEscape (chars : String)
  | invalidColour (chars : String)
  | incompleteFloat (chars : String)
  | nameTooLong (chars : String)
  | illegalStringChar (chars : String)
  | unexpectedEOF
deriving DecidableEq, Repr

/-- The two strconv.NumError causes IntValue can panic with:
`syn` models strconv.ErrSyntax, `range` models strconv.ErrRange. -/
inductive NumErr
  | syn
  | range
deriving DecidableEq, Repr

/-- Constants for tokens that are always the same sequence of runes. -/
def cEol : LexToken := ⟨.Eol, "\n"⟩

def cPercent : LexToken := ⟨.Percent, "%"⟩

def cAssignModulus : LexToken := ⟨.AssignModulus, "%="⟩

def cOParens : LexToken := ⟨.OParens, "("⟩

def cCParens : LexToken := ⟨.CParens, ")"⟩

def cStar : LexToken := ⟨.Star, "*"⟩

def cAssignMultiply : LexToken := ⟨.AssignMultiply, "*="⟩

def cPlus : LexToken := ⟨.Plus, "+"⟩

def cAssignAdd : LexToken := ⟨.AssignAdd, "+="⟩

def cIncrement : LexToken := ⟨.Increment, "++"⟩

def cComma : LexToken := ⟨.Comma, ","⟩

def cMinus : LexToken := ⟨.Minus, "-"⟩

def cAssignSubtract : LexToken := ⟨.AssignSubtract, "-="⟩

def cDecrement : LexToken := ⟨.Decrement, "--"⟩

def cSlash : LexToken := ⟨.Slash, "/"⟩

def cAssignDivide : LexToken := ⟨.AssignDivide, "/="⟩

def cColon : LexToken := ⟨.Colon, ":"⟩

def cLessThan : LexToken := ⟨.LessThan, "<"⟩

def cEquals : LexToken := ⟨.Equals, "="⟩

def cGreaterThan : LexToken := ⟨.GreaterThan, ">"⟩

def cOBracket : LexToken := ⟨.OBracket, "["⟩

def cCBracket : LexToken := ⟨.CBracket, "]"⟩

def cOBrace : LexToken := ⟨.OBrace, "\x7b"⟩

def cCBrace : LexToken := ⟨.CBrace, "\x7d"⟩

def cEof : LexToken := ⟨.Eof, ""⟩

def cUndefined : LexToken := ⟨.Undefined, ""⟩

/-- nextRune returns the next rune from the input; end of input results in 0
(the Go nextRune maps io.EOF to the rune 0). -/
def nextRune : List Char → Char × List Char
  | [] => ('\x00', [])
  | c :: rest => (c, rest)

/-- Helper function to determine if a char is a hex char, and if so its value
from 0 to 15 (the Go hexVal). -/
def hexVal (r : Char) : Nat × Bool :=
  if '0' ≤ r ∧ r ≤ '9' then (r.toNat - '0'.toNat, true)
  else if 'A' ≤ r ∧ r ≤ 'F' then (r.toNat - 'A'.toNat + 10, true)
  else if 'a' ≤ r ∧ r ≤ 'f' then (r.toNat - 'a'.toNat + 10, true)
  else (r.toNat, false)

/-- Go's strings.Builder.WriteRune: a code point that is not valid
(a surrogate, or above U+10FFFF) is written as U+FFFD. -/
def goWriteRune (n : Nat) : Char :=
  if n ≤ 0x10FFFF ∧ ¬(0xD800 ≤ n ∧ n ≤ 0xDFFF) then Char.ofNat n
  else Char.ofNat 0xFFFD

/-- Go's digit classification inside strconv.ParseUint: 0-9, a-z, A-Z map to
their values, anything else is a syntax error. -/
def goDigit (c : Char) : Option Nat :=
  if '0' ≤ c ∧ c ≤ '9' then some (c.toNat - '0'.toNat)
  else if 'a' ≤ c ∧ c ≤ 'z' then some (c.toNat - 'a'.toNat + 10)
  else if 'A' ≤ c ∧ c ≤ 'Z' then some (c.toNat - 'A'.toNat + 10)
  else none

/-- The per-character loop of strconv.ParseUint with bitSize 64: digit by
digit accumulation; a digit at or above the base is a syntax error, exceeding
the maximum unsigned 64-bit value is a range error. -/
def goParseUintLoop (base : Nat) : List Char → Nat → Except NumErr Nat
  | [], n => .ok n
  | c :: rest, n =>
    match goDigit c with
    | none => .error .syn
    | some d =>
      if base ≤ d then .error .syn
      else if 2 ^ 64 - 1 < n * base + d then .error .range
      else goParseUintLoop base rest (n * base + d)

/-- strconv.ParseUint(s, base, 64): the empty string is a syntax error. -/
def goParseUint (s : List Char) (base : Nat) : Except NumErr Nat :=
  match s with
  | [] => .error .syn
  | _ => goParseUintLoop base s 0

/-- IntValue returns the integer value for Colour and IntNumber token types:
strip the 0b / 0x / # prefix choosing the base, remove all underscores, and
parse the rest as an unsigned 64-bit integer. -/
def IntValue (l : LexToken) : Except NumErr Nat :=
  match l.token.toList with
  | '0' :: 'b' :: rest => goParseUint (rest.filter (fun c => c ≠ '_')) 2
  | '0' :: 'x' :: rest => goParseUint (rest.filter (fun c => c ≠ '_')) 16
  | '#' :: rest => goParseUint (rest.filter (fun c => c ≠ '_')) 16
  | cs => goParseUint (cs.filter (fun c => c ≠ '_')) 10

/-- The `for i := 0; i < 4; i++` loop of the Go unicodeHex, generalized over
the number of remaining iterations; reads hex chars accumulating the value,
failing on a non-hex char with the chars read so far (offending char not
included, as in the source). -/
def unicodeHexLoop : Nat → String → Nat → List Char → Except LexErr (Nat × String × List Char)
  | 0, chars, res, src => .ok (res, chars, src)
  | n + 1, chars, res, src =>
    let (r, rest) := nextRune src
    let (v, haveIt) := hexVal r
    if haveIt then unicodeHexLoop n (chars.push r) (res * 16 + v) rest
    else .error (.invalidUnicodeEscape chars)

/-- Helper function to read 4 or 6 hex chars that specify a unicode char;
the prefix (backslash-u or backslash-U-plus) has already been read and is
`pre` for error messages. After 4 mandatory hex chars, a fifth hex char makes
a sixth mandatory; a non-hex fifth char is pushed back. -/
def unicodeHex (pre : String) (src : List Char) : Except LexErr (Nat × List Char) :=
  match unicodeHexLoop 4 pre 0 src with
  | .error e => .error e
  | .ok (res, chars, src1) =>
    let (r, rest1) := nextRune src1
    let (v, haveIt) := hexVal r
    if haveIt then
      let (r2, rest2) := nextRune rest1
      let (v2, haveIt2) := hexVal r2
      if haveIt2 then .ok ((res * 16 + v) * 16 + v2, rest2)
      else .error (.invalidUnicodeEscape (chars.push r))
    else .ok (res, src1)

/-- Helper function for literal strings: read a unicode char or escape
sequence; returns the decoded code point and whether it came from an escape
(the Go escapedChar). The code point is a Nat since the 6-hex-digit escapes
can produce values that are not valid chars. -/
def escapedChar (src : List Char) : Except LexErr (Nat × Bool × List Char) :=
  let (r, rest) := nextRune src
  if r = '\\' then
    let (r2, rest2) := nextRune rest
    if r2 = '\\' then .ok (92, true, rest2)
    else if r2 = '\'' then .ok (39, true, rest2)
    else if r2 = 'n' then .ok (10, true, rest2)
    else if r2 = 'u' then
      match unicodeHex "\\u" rest2 with
      | .error e => .error e
      | .ok (n, rest3) => .ok (n, true, rest3)
    else if r2 = 'U' then
      let (r3, rest3) := nextRune rest2
      if r3 = '+' then
        match unicodeHex "\\U+" rest3 with
        | .error e => .error e
        | .ok (n, rest4) => .ok (n, true, rest4)
      else .error (.invalidUnicodeEscape (String.mk ['\\', 'U', r3]))
    else .error (.invalidEscape (String.mk ['\\', r2]))
  else .ok (r.toNat, false, rest)

theorem unicodeHexLoop_length_le (n : Nat) :
    ∀ (chars : String) (res : Nat) (src : List Char) (out : Nat × String × List Char),
    unicodeHexLoop n chars res src = .ok out → out.2.2.length ≤ src.length := by
  induction n with
  | zero =>
    intro chars res src out h
    simp only [unicodeHexLoop] at h
    cases h
    simp
  | succ n ih =>
    intro chars res src out h
    cases src with
    | nil =>
      have : unicodeHexLoop (n + 1) chars res [] =
          .error (.invalidUnicodeEscape chars) := rfl
      rw [this] at h
      cases h
    | cons c t =>
      simp only [unicodeHexLoop, nextRune] at h
      rcases hv : hexVal c with ⟨v, b⟩
      rw [hv] at h
      cases b with
      | true =>
        simp only [if_pos rfl] at h
        have := ih (chars.push c) (res * 16 + v) t out h
        simp only [List.length_cons]
        omega
      | false =>
        simp at h

theorem unicodeHex_length_le (pre : String) (src : List Char) (n : Nat) (rest : List Char)
    (h : unicodeHex pre src = .ok (n, rest)) : rest.length ≤ src.length := by
  simp only [unicodeHex] at h
  rcases hl : unicodeHexLoop 4 pre 0 src with e | ⟨res, chars, src1⟩
  · rw [hl] at h; cases h
  · rw [hl] at h
    have h1 : src1.length ≤ src.length := unicodeHexLoop_length_le 4 pre 0 src _ hl
    cases src1 with
    | nil =>
      simp only [nextRune] at h
      rcases hv : hexVal '\x00' with ⟨v, b⟩
      rw [hv] at h
      have hb : b = false := by
        have : hexVal '\x00' = (0, false) := by decide
        rw [this] at hv
        cases hv
        rfl
      subst hb
      simp only [Bool.false_eq_true, if_false] at h
      cases h
      exact h1
    | cons c1 t1 =>
      simp only [nextRune] at h
      rcases hv : hexVal c1 with ⟨v, b⟩
      rw [hv] at h
      cases b with
      | false =>
        simp only [Bool.false_eq_true, if_false] at h
        cases h
        exact h1
      | true =>
        simp only [if_pos rfl] at h
        cases t1 with
        | nil =>
          simp only [nextRune] at h
          rcases hv2 : hexVal '\x00' with ⟨v2, b2⟩
          rw [hv2] at h
          have hb2 : b2 = false := by
            have : hexVal '\x00' = (0, false) := by decide
            rw [this] at hv2
            cases hv2
            rfl
          subst hb2
          simp at h
        | cons c2 t2 =>
          simp only [nextRune] at h
          rcases hv2 : hexVal c2 with ⟨v2, b2⟩
          rw [hv2] at h
          cases b2 with
          | false => simp at h
          | true =>
            simp only [if_pos rfl] at h
            cases h
            simp only [List.length_cons] at h1 ⊢
            omega

theorem escapedChar_nil : escapedChar [] = .ok (0, false, []) := rfl

theorem escapedChar_length_lt (src : List Char) (n : Nat) (esc : Bool) (rest : List Char)
    (h : escapedChar src = .ok (n, esc, rest)) :
    src = [] ∨ rest.length < src.length := by
  cases src with
  | nil => exact Or.inl rfl
  | cons c t =>
    right
    simp only [escapedChar, nextRune] at h
    by_cases hc : c = '\\'
    · rw [if_pos hc] at h
      cases t with
      | nil =>
        simp only [nextRune] at h
        have : ('\x00' = '\\') = False := by decide
        simp only [this, if_false] at h
        have : ('\x00' = '\'') = False := by decide
        simp only [this, if_false] at h
        have : ('\x00' = 'n') = False := by decide
        simp only [this, if_false] at h
        have : ('\x00' = 'u') = False := by decide
        simp only [this, if_false] at h
        have : ('\x00' = 'U') = False := by decide
        simp only [this, if_false] at h
        cases h
      | cons c2 t2 =>
        simp only [nextRune] at h
        by_cases h2 : c2 = '\\'
        · rw [if_pos h2] at h
          cases h
          simp only [List.length_cons]
          omega
        · rw [if_neg h2] at h
          by_cases h3 : c2 = '\''
          · rw [if_pos h3] at h
            cases h
            simp only [List.length_cons]
            omega
          · rw [if_neg h3] at h
            by_cases h4 : c2 = 'n'
            · rw [if_pos h4] at h
              cases h
              simp only [List.length_cons]
              omega
            · rw [if_neg h4] at h
              by_cases h5 : c2 = 'u'
              · rw [if_pos h5] at h
                rcases hu : unicodeHex "\\u" t2 with e | ⟨m, rest3⟩
                · rw [hu] at h; cases h
                · rw [hu] at h
                  cases h
                  have := unicodeHex_length_le _ _ _ _ hu
                  simp only [List.length_cons]
                  omega
              · rw [if_neg h5] at h
                by_cases h6 : c2 = 'U'
                · rw [if_pos h6] at h
                  cases t2 with
                  | nil =>
                    simp only [nextRune] at h
                    have : ('\x00' = '+') = False := by decide
                    simp only [this, if_false] at h
                    cases h
                  | cons c3 t3 =>
                    simp only [nextRune] at h
                    by_cases h7 : c3 = '+'
                    · rw [if_pos h7] at h
                      rcases hu : unicodeHex "\\U+" t3 with e | ⟨m, rest4⟩
                      · rw [hu] at h; cases h
                      · rw [hu] at h
                        cases h
                        have := unicodeHex_length_le _ _ _ _ hu
                        simp only [List.length_cons]
                        omega
                    · rw [if_neg h7] at h
                      cases h
                · rw [if_neg h6] at h
                  cases h
    · rw [if_neg hc] at h
      cases h
      simp

/-- Helper function to read a single quoted string: single quoted strings end
with an unescaped single quote. Each decoded code point is written to the
accumulated text (via Go's WriteRune); a control character below space other
than carriage return and newline is an error, the code 0 (end of input) is
an unexpected-EOF error. -/
def readString (str : List Char) (src : List Char) : Except LexErr (LexToken × List Char) :=
  match hesc : escapedChar src with
  | .error e => .error e
  | .ok (n, escaped, rest) =>
    let str' := str ++ [goWriteRune n]
    if hctl : n < 32 ∧ n ≠ 13 ∧ n ≠ 10 then
      if n = 0 then .error .unexpectedEOF
      else .error (.illegalStringChar (String.mk str'))
    else if hq : n = 39 ∧ escaped = false then
      .ok (⟨.Str, String.mk str'⟩, rest)
    else
      readString str' rest
termination_by src.length
decreasing_by
  rcases escapedChar_length_lt src n escaped rest hesc with hnil | hlt
  · exfalso
    subst hnil
    rw [escapedChar_nil] at hesc
    cases hesc
    exact hctl (by decide)
  · exact hlt

/-- Helper function to read a binary number of 0, 1, and _ (the Go
readBinaryNumber, with the accumulated text made explicit; it is started
with "0b" already accumulated). -/
def readBinaryNumber (str : List Char) : List Char → LexToken × List Char
  | [] => (⟨.IntNumber, String.mk str⟩, [])
  | r :: rest =>
    if r = '0' ∨ r = '1' ∨ r = '_' then readBinaryNumber (str ++ [r]) rest
    else (⟨.IntNumber, String.mk str⟩, r :: rest)

/-- Helper function to read a hex number of hex digits and _ (the Go
readHexNumber, accumulated text explicit, started with "0x"). -/
def readHexNumber (str : List Char) : List Char → LexToken × List Char
  | [] => (⟨.IntNumber, String.mk str⟩, [])
  | r :: rest =>
    if (hexVal r).2 ∨ r = '_' then readHexNumber (str ++ [r]) rest
    else (⟨.IntNumber, String.mk str⟩, r :: rest)

/-- Helper function to read a float number; we started as a decimal number
and just read a '.', 'e', or 'E'. Modes: 0 = after '.', before first digit;
1 = digits after '.'; 2 = after 'e', before first exponent digit; 3 = after
first exponent digit. -/
def readFloatNumber (str : List Char) (mode : Nat) : List Char → Except LexErr (LexToken × List Char)
  | [] =>
    match mode with
    | 0 => .error (.incompleteFloat (String.mk str))
    | 1 => .ok (⟨.FloatNumber, String.mk str⟩, [])
    | 2 => .error (.incompleteFloat (String.mk str))
    | _ => .ok (⟨.FloatNumber, String.mk str⟩, [])
  | r :: rest =>
    if '0' ≤ r ∧ r ≤ '9' then
      readFloatNumber (str ++ [r]) (if mode = 0 then 1 else if mode = 2 then 3 else mode) rest
    else if r = 'e' ∨ r = 'E' then
      match mode with
      | 0 => .error (.incompleteFloat (String.mk (str ++ [r])))
      | 1 => readFloatNumber (str ++ [r]) 2 rest
      | 2 => .error (.incompleteFloat (String.mk str))
      | _ => .ok (⟨.FloatNumber, String.mk str⟩, r :: rest)
    else
      match mode with
      | 0 => .error (.incompleteFloat (String.mk (if r = '\x00' then str else str ++ [r])))
      | 1 => .ok (⟨.FloatNumber, String.mk str⟩, r :: rest)
      | 2 => .error (.incompleteFloat (String.mk (if r = '\x00' then str else str ++ [r])))
      | _ => .ok (⟨.FloatNumber, String.mk str⟩, r :: rest)

/-- Helper function to read a decimal number, which may be an integer or a
float (the Go readDecimalNumber; the first digit is the initial accumulated
text). -/
def readDecimalNumber (str : List Char) : List Char → Except LexErr (LexToken × List Char)
  | [] => .ok (⟨.IntNumber, String.mk str⟩, [])
  | r :: rest =>
    if '0' ≤ r ∧ r ≤ '9' then readDecimalNumber (str ++ [r]) rest
    else if r = '_' then readDecimalNumber (str ++ [r]) rest
    else if r = '.' ∨ r = 'e' ∨ r = 'E' then
      readFloatNumber (str ++ [r]) (if r = '.' then 0 else 2) rest
    else .ok (⟨.IntNumber, String.mk str⟩, r :: rest)

/-- The identifier loop inside the Go Lex. Note that the source breaks out of
the loop without UnreadRune, so the rune that ends the name is consumed and
discarded. A name longer than 16 chars is an error. -/
def readName (str : List Char) : List Char → Except LexErr (LexToken × List Char)
  | [] =>
    if 16 < str.length then .error (.nameTooLong (String.mk str))
    else .ok (⟨.Name, String.mk str⟩, [])
  | r :: rest =>
    if ('A' ≤ r ∧ r ≤ 'Z') ∨ ('a' ≤ r ∧ r ≤ 'z') ∨ ('0' ≤ r ∧ r ≤ '9') ∨ r = '_' then
      readName (str ++ [r]) rest
    else if 16 < str.length then .error (.nameTooLong (String.mk str))
    else .ok (⟨.Name, String.mk str⟩, rest)

/-- The colour loop inside the Go Lex: after '#', read exactly 6 runes, each
of which must be a hex digit; the rune is appended to the text before the
check, so the invalid-colour error includes the offending character. -/
def readColour (str : List Char) : Nat → List Char → Except LexErr (LexToken × List Char)
  | 0, src => .ok (⟨.Colour, String.mk str⟩, src)
  | n + 1, src =>
    let (r, rest) := nextRune src
    if (hexVal r).2 then readColour (str ++ [r]) n rest
    else .error (.invalidColour (String.mk (str ++ [r])))

/-- Lex lexes the next token in the given input, returning the token and the
input positioned at the first rune of the next token (the Go Lex). The
source reads one rune and returns the Eof token when that rune is 0; here
the end-of-input case of that read is the empty-list branch, and a literal
NUL rune read from the input takes the `r = '\x00'` branch, exactly as both
make the source's nextRune return 0. -/
def Lex : List Char → Except LexErr (LexToken × List Char)
  | [] => .ok (cEof, [])
  | r :: rest =>
  if r = '\x00' then .ok (cEof, rest)
  else if r = '\n' then .ok (cEol, rest)
  else if r = '\r' then
    let (r2, rest2) := nextRune rest
    if r2 = '\n' then .ok (cEol, rest2) else .ok (cEol, rest)
  else if r = '#' then readColour ['#'] 6 rest
  else if r = '%' then
    let (r2, rest2) := nextRune rest
    if r2 = '=' then .ok (cAssignModulus, rest2) else .ok (cPercent, rest)
  else if r = '\'' then readString ['\''] rest
  else if r = '(' then .ok (cOParens, rest)
  else if r = ')' then .ok (cCParens, rest)
  else if r = '*' then
    let (r2, rest2) := nextRune rest
    if r2 = '=' then .ok (cAssignMultiply, rest2) else .ok (cStar, rest)
  else if r = '+' then
    let (r2, rest2) := nextRune rest
    if r2 = '=' then .ok (cAssignAdd, rest2)
    else if r2 = '+' then .ok (cIncrement, rest2)
    else .ok (cPlus, rest)
  else if r = ',' then .ok (cComma, rest)
  else if r = '-' then
    let (r2, rest2) := nextRune rest
    if r2 = '=' then .ok (cAssignSubtract, rest2)
    else if r2 = '-' then .ok (cDecrement, rest2)
    else .ok (cMinus, rest)
  else if r = '/' then
    let (r2, rest2) := nextRune rest
    if r2 = '=' then .ok (cAssignDivide, rest2) else .ok (cSlash, rest)
  else if r = ':' then .ok (cColon, rest)
  else if r = '<' then .ok (cLessThan, rest)
  else if r = '=' then .ok (cEquals, rest)
  else if r = '>' then .ok (cGreaterThan, rest)
  else if r = '[' then .ok (cOBracket, rest)
  else if r = ']' then .ok (cCBracket, rest)
  else if r = '\x7b' then .ok (cOBrace, rest)
  else if r = '\x7d' then .ok (cCBrace, rest)
  else if r = '0' then
    let (r2, rest2) := nextRune rest
    if r2 = 'b' then .ok (readBinaryNumber ['0', 'b'] rest2)
    else if r2 = 'x' then .ok (readHexNumber ['0', 'x'] rest2)
    else if '0' ≤ r2 ∧ r2 ≤ '9' then readDecimalNumber ['0'] rest
    else .ok (cUndefined, rest2)
  else if '1' ≤ r ∧ r ≤ '9' then readDecimalNumber [r] rest
  else if ('A' ≤ r ∧ r ≤ 'Z') ∨ ('a' ≤ r ∧ r ≤ 'z') then readName [r] rest
  else .ok (cUndefined, rest)

/-- Iterated lexing: `lexIter k src` performs k calls to Lex discarding the
tokens, then returns the result of one more call. -/
def lexIter : Nat → List Char → Except LexErr (LexToken × List Char)
  | 0, src => Lex src
  | k + 1, src =>
    match Lex src with
    | .error e => .error e
    | .ok (_, rest) => lexIter k rest

/-- The value of a big-endian string of hex digits (used to state what a
unicode escape decodes to). -/
def hexNum (cs : List Char) : Nat :=
  cs.foldl (fun a c => a * 16 + (hexVal c).1) 0

/-- Modelled from the spec: the relation between the source characters of one
logical string character and the code point it decodes to, with the flag
telling whether it came from an escape. A plain character decodes to itself;
the recognized escapes decode to backslash (92), quote (39), newline (10),
or the value of 4 or 6 hex digits after backslash-u or backslash-U-plus. -/
inductive EscDecodes : List Char → Nat → Bool → Prop where
  | plain (c : Char) : c ≠ '\\' → EscDecodes [c] c.toNat false
  | backslashEsc : EscDecodes ['\\', '\\'] 92 true
  | quoteEsc : EscDecodes ['\\', '\''] 39 true
  | newlineEsc : EscDecodes ['\\', 'n'] 10 true
  | uEsc (hs : List Char) : hs.length = 4 ∨ hs.length = 6 →
      (∀ c ∈ hs, (hexVal c).2 = true) →
      EscDecodes ('\\' :: 'u' :: hs) (hexNum hs) true
  | bigUEsc (hs : List Char) : hs.length = 4 ∨ hs.length = 6 →
      (∀ c ∈ hs, (hexVal c).2 = true) →
      EscDecodes ('\\' :: 'U' :: '+' :: hs) (hexNum hs) true

/-- Modelled from the spec (amended): how a returned token's text relates to
the characters consumed to produce it. Operator, punctuation, colour and
numeric tokens consume exactly their text; newline tokens canonicalize one of
the three newline encodings to "\n"; End-of-Input and Undefined have empty
text but may consume input (a NUL rune, or one or two runes); name tokens
additionally consume (and discard) the rune that ended the name when one was
read; string tokens consume the quotes and the source form of each escape
while their text records each consumed logical character's decoded value. -/
def ConsumedSpec (consumed : List Char) (tok : LexToken) : Prop :=
  match tok.tokenType with
  | .Eol => tok.token = "\n" ∧ (consumed = ['\n'] ∨ consumed = ['\r'] ∨ consumed = ['\r', '\n'])
  | .Eof => tok.token = "" ∧ (consumed = [] ∨ consumed = ['\x00'])
  | .Undefined => tok.token = "" ∧ (consumed.length = 1 ∨ consumed.length = 2)
  | .Name => ∃ t, t.length ≤ 1 ∧ consumed = tok.token.toList ++ t
  | .Str => ∃ units : List (List Char × Nat × Bool),
      consumed = '\'' :: (units.map (fun p => p.1)).flatten ∧
      tok.token.toList = '\'' :: units.map (fun p => goWriteRune p.2.1) ∧
      ∀ p ∈ units, EscDecodes p.1 p.2.1 p.2.2
  | _ => tok.token.toList = consumed

instance {e a : Type} [DecidableEq e] [DecidableEq a] : DecidableEq (Except e a) := fun x y =>
  match x, y with
  | .ok u, .ok v =>
    if h : u = v then .isTrue (by rw [h]) else .isFalse (by intro hc; cases hc; exact h rfl)
  | .error u, .error v =>
    if h : u = v then .isTrue (by rw [h]) else .isFalse (by intro hc; cases hc; exact h rfl)
  | .ok _, .error _ => .isFalse (by intro hc; cases hc)
  | .error _, .ok _ => .isFalse (by intro hc; cases hc)

theorem nextRune_cases (src : List Char) (r : Char) (rest : List Char)
    (h : nextRune src = (r, rest)) :
    (src = [] ∧ r = '\x00' ∧ rest = []) ∨ src = r :: rest := by
  cases src with
  | nil => cases h; exact Or.inl ⟨rfl, rfl, rfl⟩
  | cons c t => cases h; exact Or.inr rfl

theorem readString_err (str src : List Char) (e : LexErr)
    (h : escapedChar src = .error e) : readString str src = .error e := by
  rw [readString.eq_def]
  split
  · rename_i e' heq
    rw [h] at heq
    cases heq
    rfl
  · rename_i n esc rest heq
    rw [h] at heq
    cases heq

theorem readString_eofErr (str src : List Char) (esc : Bool) (rest : List Char)
    (h : escapedChar src = .ok (0, esc, rest)) :
    readString str src = .error .unexpectedEOF := by
  rw [readString.eq_def]
  split
  · rename_i e' heq
    rw [h] at heq
    cases heq
  · rename_i n esc' rest' heq
    rw [h] at heq
    cases heq
    rw [dif_pos (by decide)]
    rw [if_pos rfl]

theorem readString_ctlErr (str src : List Char) (n : Nat) (esc : Bool) (rest : List Char)
    (h : escapedChar src = .ok (n, esc, rest))
    (hn : n < 32 ∧ n ≠ 13 ∧ n ≠ 10) (h0 : n ≠ 0) :
    readString str src = .error (.illegalStringChar (String.mk (str ++ [goWriteRune n]))) := by
  rw [readString.eq_def]
  split
  · rename_i e' heq
    rw [h] at heq
    cases heq
  · rename_i n' esc' rest' heq
    rw [h] at heq
    cases heq
    rw [dif_pos hn, if_neg h0]

theorem readString_done (str src : List Char) (rest : List Char)
    (h : escapedChar src = .ok (39, false, rest)) :
    readString str src = .ok (⟨.Str, String.mk (str ++ ['\''])⟩, rest) := by
  rw [readString.eq_def]
  split
  · rename_i e' heq
    rw [h] at heq
    cases heq
  · rename_i n' esc' rest' heq
    rw [h] at heq
    cases heq
    rw [dif_neg (by decide), dif_pos ⟨rfl, rfl⟩]
    rfl

theorem readString_step (str src : List Char) (n : Nat) (esc : Bool) (rest : List Char)
    (h : escapedChar src = .ok (n, esc, rest))
    (h1 : ¬(n < 32 ∧ n ≠ 13 ∧ n ≠ 10)) (h2 : ¬(n = 39 ∧ esc = false)) :
    readString str src = readString (str ++ [goWriteRune n]) rest := by
  rw [readString.eq_def]
  split
  · rename_i e' heq
    rw [h] at heq
    cases heq
  · rename_i n' esc' rest' heq
    rw [h] at heq
    cases heq
    rw [dif_neg h1, dif_neg h2]

theorem escapedChar_plain (c : Char) (rest : List Char) (h : c ≠ '\\') :
    escapedChar (c :: rest) = .ok (c.toNat, false, rest) := by
  simp only [escapedChar, nextRune]
  rw [if_neg h]

/-- Claim C2 (amended): for an input whose first rune is '0' and whose second
rune is neither 'b', 'x', nor an ASCII digit, Lex consumes and discards that
second rune (it is NOT pushed back) and returns the Undefined token; for the
input "0" alone, the Undefined token is likewise returned. -/
theorem claim2_zero_undefined :
    (∀ (c : Char) (rest : List Char), c ≠ 'b' → c ≠ 'x' → ¬('0' ≤ c ∧ c ≤ '9') →
      Lex ('0' :: c :: rest) = .ok (cUndefined, rest)) ∧
    Lex ['0'] = .ok (cUndefined, []) := by
  constructor
  · intro c rest hb hx hd
    simp only [Lex, nextRune, Char.reduceEq, reduceIte]
    rw [if_neg hb, if_neg hx, if_neg hd]
  · rfl

/-- Claim C2 witness: on input "0(", the '(' is consumed and Undefined is
returned with nothing left in the input. -/
theorem claim2_zero_undefined_witness : Lex ['0', '('] = .ok (cUndefined, []) :=
  claim2_zero_undefined.1 '(' [] (by decide) (by decide) (by decide)

/-- Claim C2 counterexample: on input "0(", Lex does not push the '(' back:
the remaining input is empty rather than "(", and a second call returns the
End-of-Input token, not the open-paren token the claimed pushback would give. -/
theorem claim2_counterexample :
    Lex ['0', '('] = .ok (cUndefined, []) ∧ Lex [] = .ok (cEof, []) ∧
    ([] : List Char) ≠ ['('] ∧ cEof ≠ cOParens :=
  ⟨rfl, rfl, by decide, by decide⟩

/-- Claim C3 (amended): a numeric literal reaching end-of-input or a non-digit
immediately after '.', 'e', or 'E' (zero digits in that part) fails with an
incomplete-float error naming the partially built text, plus the offending
character when it is not end-of-input (a NUL rune counts as end-of-input)
and is not an 'e'/'E' met while awaiting the first exponent digit, in which
case only the partial text is reported; "12.", "12e", "12E" fail naming
exactly that text. Modes: 0 = just after '.', 2 = just after 'e'/'E'. -/
theorem claim3_incomplete_float :
    Lex "12.".toList = .error (.incompleteFloat "12.") ∧
    Lex "12e".toList = .error (.incompleteFloat "12e") ∧
    Lex "12E".toList = .error (.incompleteFloat "12E") ∧
    (∀ str, readFloatNumber str 0 [] = .error (.incompleteFloat (String.mk str))) ∧
    (∀ str, readFloatNumber str 2 [] = .error (.incompleteFloat (String.mk str))) ∧
    (∀ str rest, readFloatNumber str 0 ('\x00' :: rest) =
      .error (.incompleteFloat (String.mk str))) ∧
    (∀ str rest, readFloatNumber str 2 ('\x00' :: rest) =
      .error (.incompleteFloat (String.mk str))) ∧
    (∀ str (c : Char) rest, ¬('0' ≤ c ∧ c ≤ '9') → c ≠ 'e' → c ≠ 'E' → c ≠ '\x00' →
      readFloatNumber str 0 (c :: rest) = .error (.incompleteFloat (String.mk (str ++ [c])))) ∧
    (∀ str (c : Char) rest, ¬('0' ≤ c ∧ c ≤ '9') → c ≠ 'e' → c ≠ 'E' → c ≠ '\x00' →
      readFloatNumber str 2 (c :: rest) = .error (.incompleteFloat (String.mk (str ++ [c])))) ∧
    (∀ str (c : Char) rest, c = 'e' ∨ c = 'E' →
      readFloatNumber str 0 (c :: rest) = .error (.incompleteFloat (String.mk (str ++ [c])))) ∧
    (∀ str (c : Char) rest, c = 'e' ∨ c = 'E' →
      readFloatNumber str 2 (c :: rest) = .error (.incompleteFloat (String.mk str))) := by
  refine ⟨rfl, rfl, rfl, fun str => rfl, fun str => rfl, fun str rest => rfl,
    fun str rest => rfl, ?_, ?_, ?_, ?_⟩
  · intro str c rest hd he hE h0
    simp only [readFloatNumber]
    rw [if_neg hd, if_neg (not_or.mpr ⟨he, hE⟩), if_neg h0]
  · intro str c rest hd he hE h0
    simp only [readFloatNumber]
    rw [if_neg hd, if_neg (not_or.mpr ⟨he, hE⟩), if_neg h0]
  · intro str c rest h
    rcases h with rfl | rfl
    · rfl
    · rfl
  · intro str c rest h
    rcases h with rfl | rfl
    · rfl
    · rfl

/-- Claim C3 witness: after "12." the offending '%' is included in the
incomplete-float error. -/
theorem claim3_incomplete_float_witness :
    readFloatNumber ['1', '2', '.'] 0 ['%'] = .error (.incompleteFloat "12.%") :=
  claim3_incomplete_float.2.2.2.2.2.2.2.1 ['1', '2', '.'] '%' []
    (by decide) (by decide) (by decide) (by decide)

/-- Claim C3 counterexample: lexing "12ee" reaches a non-digit (the second
'e', not end-of-input) immediately after the exponent marker, but the error
names only "12e" — the offending character is not appended, contradicting
the claim that the message always contains partial text plus offending
character (which would be "12ee"). -/
theorem claim3_counterexample :
    Lex "12ee".toList = .error (.incompleteFloat "12e") ∧ ("12e" : String) ≠ "12ee" :=
  ⟨rfl, by decide⟩

/-- Claim C4: each of "\n", "\r", "\r\n" lexes to a Newline token with text
exactly "\n" and then End-of-Input; '\r' followed by '\n' consumes both,
'\r' followed by anything else pushes the follower back. -/
theorem claim4_newline :
    cEol = ⟨.Eol, "\n"⟩ ∧
    Lex "\n".toList = .ok (cEol, []) ∧
    Lex "\r".toList = .ok (cEol, []) ∧
    Lex "\r\n".toList = .ok (cEol, []) ∧
    Lex [] = .ok (cEof, []) ∧
    (∀ rest, Lex ('\r' :: '\n' :: rest) = .ok (cEol, rest)) ∧
    (∀ (c : Char) (rest : List Char), c ≠ '\n' → Lex ('\r' :: c :: rest) = .ok (cEol, c :: rest)) := by
  refine ⟨rfl, rfl, rfl, rfl, rfl, fun rest => rfl, fun c rest h => ?_⟩
  simp only [Lex, nextRune, Char.reduceEq, reduceIte]
  rw [if_neg h]

/-- Claim C4 witness: '\r' followed by 'x' pushes 'x' back. -/
theorem claim4_newline_witness : Lex ['\r', 'x'] = .ok (cEol, ['x']) :=
  claim4_newline.2.2.2.2.2.2 'x' [] (by decide)

/-- Claim C5: on an exhausted cursor Lex returns End-of-Input, and every
number of subsequent calls on the same exhausted cursor returns End-of-Input
again (idempotence at end-of-stream). -/
theorem claim5_eof_idempotent :
    Lex [] = .ok (cEof, []) ∧ ∀ k, lexIter k [] = .ok (cEof, []) := by
  refine ⟨rfl, fun k => ?_⟩
  induction k with
  | zero => rfl
  | succ k ih => exact ih

/-- Claim C8: each operator family lexes the single character, the
'=' continuation, and (for + and -) the doubled character to the expected
tokens, and any non-matching lookahead is pushed back to begin the next
token. -/
theorem claim8_operators :
    (Lex ['%'] = .ok (cPercent, []) ∧
     (∀ rest, Lex ('%' :: '=' :: rest) = .ok (cAssignModulus, rest)) ∧
     (∀ (c : Char) rest, c ≠ '=' → Lex ('%' :: c :: rest) = .ok (cPercent, c :: rest))) ∧
    (Lex ['*'] = .ok (cStar, []) ∧
     (∀ rest, Lex ('*' :: '=' :: rest) = .ok (cAssignMultiply, rest)) ∧
     (∀ (c : Char) rest, c ≠ '=' → Lex ('*' :: c :: rest) = .ok (cStar, c :: rest))) ∧
    (Lex ['+'] = .ok (cPlus, []) ∧
     (∀ rest, Lex ('+' :: '=' :: rest) = .ok (cAssignAdd, rest)) ∧
     (∀ rest, Lex ('+' :: '+' :: rest) = .ok (cIncrement, rest)) ∧
     (∀ (c : Char) rest, c ≠ '=' → c ≠ '+' → Lex ('+' :: c :: rest) = .ok (cPlus, c :: rest))) ∧
    (Lex ['-'] = .ok (cMinus, []) ∧
     (∀ rest, Lex ('-' :: '=' :: rest) = .ok (cAssignSubtract, rest)) ∧
     (∀ rest, Lex ('-' :: '-' :: rest) = .ok (cDecrement, rest)) ∧
     (∀ (c : Char) rest, c ≠ '=' → c ≠ '-' → Lex ('-' :: c :: rest) = .ok (cMinus, c :: rest))) ∧
    (Lex ['/'] = .ok (cSlash, []) ∧
     (∀ rest, Lex ('/' :: '=' :: rest) = .ok (cAssignDivide, rest)) ∧
     (∀ (c : Char) rest, c ≠ '=' → Lex ('/' :: c :: rest) = .ok (cSlash, c :: rest))) ∧
    Lex "%%".toList = .ok (cPercent, ['%']) ∧
    Lex "%=%".toList = .ok (cAssignModulus, ['%']) ∧
    Lex "++%".toList = .ok (cIncrement, ['%']) ∧
    Lex "--%".toList = .ok (cDecrement, ['%']) := by
  refine ⟨⟨rfl, fun rest => rfl, fun c rest h => ?_⟩,
    ⟨rfl, fun rest => rfl, fun c rest h => ?_⟩,
    ⟨rfl, fun rest => rfl, fun rest => rfl, fun c rest h1 h2 => ?_⟩,
    ⟨rfl, fun rest => rfl, fun rest => rfl, fun c rest h1 h2 => ?_⟩,
    ⟨rfl, fun rest => rfl, fun c rest h => ?_⟩, rfl, rfl, rfl, rfl⟩
  · simp only [Lex, nextRune, Char.reduceEq, reduceIte]
    rw [if_neg h]
  · simp only [Lex, nextRune, Char.reduceEq, reduceIte]
    rw [if_neg h]
  · simp only [Lex, nextRune, Char.reduceEq, reduceIte]
    rw [if_neg h1, if_neg h2]
  · simp only [Lex, nextRune, Char.reduceEq, reduceIte]
    rw [if_neg h1, if_neg h2]
  · simp only [Lex, nextRune, Char.reduceEq, reduceIte]
    rw [if_neg h]

/-- Claim C8 witness: '+' followed by the sentinel '%' pushes the '%' back. -/
theorem claim8_operators_witness : Lex ['+', '%'] = .ok (cPlus, ['%']) :=
  claim8_operators.2.2.1.2.2.2 '%' [] (by decide) (by decide)

/-- Claim C9: the rune reader maps a read NUL character and end-of-input to
the same sentinel 0, so Lex returns End-of-Input upon a NUL even with more
input after it, and inside a string a NUL raises the unexpected-EOF error. -/
theorem claim9_nul_as_eof :
    nextRune [] = ('\x00', []) ∧
    (∀ rest, nextRune ('\x00' :: rest) = ('\x00', rest)) ∧
    (∀ rest, Lex ('\x00' :: rest) = .ok (cEof, rest)) ∧
    Lex ['\x00', 'a', 'b'] = .ok (cEof, ['a', 'b']) ∧
    (∀ str rest, readString str ('\x00' :: rest) = .error .unexpectedEOF) ∧
    Lex ['\'', 'a', '\x00', 'b', '\''] = .error .unexpectedEOF := by
  refine ⟨rfl, fun rest => rfl, fun rest => rfl, rfl, fun str rest => ?_, ?_⟩
  · exact readString_eofErr str _ false rest (escapedChar_plain '\x00' rest (by decide))
  · show readString ['\''] ['a', '\x00', 'b', '\''] = _
    rw [readString_step ['\''] _ 'a'.toNat false _ (escapedChar_plain 'a' _ (by decide))
      (by decide) (by decide)]
    exact readString_eofErr _ _ false _ (escapedChar_plain '\x00' _ (by decide))

/-- Claim C10: a '0b' or '0x' literal whose body is empty still scans
successfully to an Integer token with text exactly "0b" / "0x", but decoding
it with IntValue fails with a syntax error (not a range error) because the
stripped digit string is empty. -/
theorem claim10_empty_body :
    (∀ (c : Char) (rest : List Char), ¬(c = '0' ∨ c = '1' ∨ c = '_') →
      Lex ('0' :: 'b' :: c :: rest) = .ok (⟨.IntNumber, "0b"⟩, c :: rest)) ∧
    Lex "0b".toList = .ok (⟨.IntNumber, "0b"⟩, []) ∧
    (∀ (c : Char) (rest : List Char), ¬((hexVal c).2 = true ∨ c = '_') →
      Lex ('0' :: 'x' :: c :: rest) = .ok (⟨.IntNumber, "0x"⟩, c :: rest)) ∧
    Lex "0x(".toList = .ok (⟨.IntNumber, "0x"⟩, ['(']) ∧
    IntValue ⟨.IntNumber, "0b"⟩ = .error .syn ∧
    IntValue ⟨.IntNumber, "0x"⟩ = .error .syn ∧
    NumErr.syn ≠ NumErr.range := by
  refine ⟨fun c rest h => ?_, rfl, fun c rest h => ?_, rfl, rfl, rfl, by decide⟩
  · show Except.ok (readBinaryNumber ['0', 'b'] (c :: rest)) = _
    simp only [readBinaryNumber]
    rw [if_neg h]
  · show Except.ok (readHexNumber ['0', 'x'] (c :: rest)) = _
    simp only [readHexNumber]
    rw [if_neg h]

/-- Claim C10 witness: input "0b(" scans to Integer "0b" leaving "(". -/
theorem claim10_empty_body_witness : Lex ['0', 'b', '('] = .ok (⟨.IntNumber, "0b"⟩, ['(']) :=
  claim10_empty_body.1 '(' [] (by decide)

theorem readColour_ok_aux (cs : List Char) :
    ∀ (str rest : List Char), (∀ c ∈ cs, (hexVal c).2 = true) →
    readColour str cs.length (cs ++ rest) = .ok (⟨.Colour, String.mk (str ++ cs)⟩, rest) := by
  induction cs with
  | nil =>
    intro str rest _
    simp [readColour]
  | cons c t ih =>
    intro str rest h
    simp only [List.length_cons, List.cons_append, readColour, nextRune]
    rw [if_pos (h c (by simp))]
    rw [ih (str ++ [c]) rest (fun x hx => h x (by simp [hx]))]
    simp

theorem readColour_err_aux (pre : List Char) :
    ∀ (str : List Char) (n : Nat) (c : Char) (rest : List Char),
    pre.length < n → (∀ x ∈ pre, (hexVal x).2 = true) → (hexVal c).2 = false →
    readColour str n (pre ++ c :: rest) =
      .error (.invalidColour (String.mk (str ++ pre ++ [c]))) := by
  induction pre with
  | nil =>
    intro str n c rest hn _ hc
    cases n with
    | zero => omega
    | succ m =>
      simp only [List.nil_append, readColour, nextRune]
      rw [if_neg (by simp [hc])]
      simp
  | cons p ps ih =>
    intro str n c rest hn hall hc
    cases n with
    | zero => omega
    | succ m =>
      simp only [List.cons_append, readColour, nextRune]
      rw [if_pos (hall p (by simp))]
      rw [ih (str ++ [p]) m c rest (by simp only [List.length_cons] at hn; omega)
        (fun x hx => hall x (by simp [hx])) hc]
      simp

/-- Claim C6: lexing "#123456" yields a Colour token whose IntValue is
0x123456; after '#' exactly 6 runes are read, a non-hex rune among them
fails with an invalid-colour error naming the partial text including the
offending character, and IntValue strips '#' and parses base 16. -/
theorem claim6_colour :
    Lex "#123456".toList = .ok (⟨.Colour, "#123456"⟩, []) ∧
    IntValue ⟨.Colour, "#123456"⟩ = .ok 0x123456 ∧
    (∀ (cs rest : List Char), cs.length = 6 → (∀ c ∈ cs, (hexVal c).2 = true) →
      Lex ('#' :: (cs ++ rest)) = .ok (⟨.Colour, String.mk ('#' :: cs)⟩, rest)) ∧
    (∀ (pre : List Char) (c : Char) (rest : List Char), pre.length < 6 →
      (∀ x ∈ pre, (hexVal x).2 = true) → (hexVal c).2 = false →
      Lex ('#' :: (pre ++ c :: rest)) =
        .error (.invalidColour (String.mk ('#' :: (pre ++ [c]))))) ∧
    (∀ rest : List Char, IntValue ⟨.Colour, String.mk ('#' :: rest)⟩ =
      goParseUint (rest.filter (fun c => c ≠ '_')) 16) := by
  refine ⟨rfl, rfl, ?_, ?_, fun rest => rfl⟩
  · intro cs rest h6 hall
    show readColour ['#'] 6 (cs ++ rest) = _
    rw [← h6, readColour_ok_aux cs ['#'] rest hall]
    rfl
  · intro pre c rest hn hall hc
    show readColour ['#'] 6 (pre ++ c :: rest) = _
    rw [readColour_err_aux pre ['#'] 6 c rest hn hall hc]
    simp

/-- Claim C6 witness: "#abcdef" followed by '%' scans the 6 hex runes to a
Colour token and leaves the '%'. -/
theorem claim6_colour_witness :
    Lex ('#' :: ("abcdef".toList ++ ['%'])) =
      .ok (⟨.Colour, String.mk ('#' :: "abcdef".toList)⟩, ['%']) :=
  claim6_colour.2.2.1 "abcdef".toList ['%'] rfl (by decide)

/-- Claim C7: IntValue strips the known prefix (0b base 2, 0x base 16,
'#' base 16, otherwise base 10) and all underscores, then parses as an
unsigned 64-bit integer; "18446744073709551615" decodes to the maximum
uint64 and "18446744073709551616" fails with a range error. -/
theorem claim7_intvalue :
    (∀ rest : List Char, IntValue ⟨.IntNumber, String.mk ('0' :: 'b' :: rest)⟩ =
      goParseUint (rest.filter (fun c => c ≠ '_')) 2) ∧
    (∀ rest : List Char, IntValue ⟨.IntNumber, String.mk ('0' :: 'x' :: rest)⟩ =
      goParseUint (rest.filter (fun c => c ≠ '_')) 16) ∧
    (∀ rest : List Char, IntValue ⟨.Colour, String.mk ('#' :: rest)⟩ =
      goParseUint (rest.filter (fun c => c ≠ '_')) 16) ∧
    (∀ cs : List Char, (¬∃ t, cs = '0' :: 'b' :: t) → (¬∃ t, cs = '0' :: 'x' :: t) →
      (¬∃ t, cs = '#' :: t) →
      IntValue ⟨.IntNumber, String.mk cs⟩ = goParseUint (cs.filter (fun c => c ≠ '_')) 10) ∧
    IntValue ⟨.IntNumber, "18446744073709551615"⟩ = .ok (2 ^ 64 - 1) ∧
    IntValue ⟨.IntNumber, "18446744073709551616"⟩ = .error .range ∧
    IntValue ⟨.IntNumber, "1_2"⟩ = .ok 12 := by
  refine ⟨fun rest => rfl, fun rest => rfl, fun rest => rfl, ?_, by decide, by decide, rfl⟩
  intro cs hb hx hh
  simp only [IntValue]
  split
  · rename_i rest heq
    exact absurd ⟨rest, heq⟩ hb
  · rename_i rest heq
    exact absurd ⟨rest, heq⟩ hx
  · rename_i rest heq
    exact absurd ⟨rest, heq⟩ hh
  · rfl

/-- Claim C7 witness: a prefix-free token text such as "12" is parsed in
base 10. -/
theorem claim7_intvalue_witness :
    IntValue ⟨.IntNumber, String.mk ['1', '2']⟩ =
      goParseUint (['1', '2'].filter (fun c => c ≠ '_')) 10 :=
  claim7_intvalue.2.2.2.1 ['1', '2'] (by rintro ⟨t, h⟩; simp at h)
    (by rintro ⟨t, h⟩; simp at h) (by rintro ⟨t, h⟩; simp at h)

theorem ok_pair_inj {e a b : Type} {x x' : a} {y y' : b}
    (h : (Except.ok (x, y) : Except e (a × b)) = .ok (x', y')) : x = x' ∧ y = y' := by
  injection h with h'
  injection h' with h1 h2
  exact ⟨h1, h2⟩

theorem readBinaryNumber_consumed (src : List Char) :
    ∀ str : List Char, ∃ body rest,
      readBinaryNumber str src = (⟨.IntNumber, String.mk (str ++ body)⟩, rest) ∧
      src = body ++ rest := by
  induction src with
  | nil =>
    intro str
    exact ⟨[], [], by simp [readBinaryNumber], rfl⟩
  | cons c t ih =>
    intro str
    by_cases h : c = '0' ∨ c = '1' ∨ c = '_'
    · obtain ⟨body, rest, h1, h2⟩ := ih (str ++ [c])
      refine ⟨c :: body, rest, ?_, by simp [h2]⟩
      simp only [readBinaryNumber]
      rw [if_pos h, h1]
      simp
    · refine ⟨[], c :: t, ?_, by simp⟩
      simp only [readBinaryNumber]
      rw [if_neg h]
      simp

theorem readHexNumber_consumed (src : List Char) :
    ∀ str : List Char, ∃ body rest,
      readHexNumber str src = (⟨.IntNumber, String.mk (str ++ body)⟩, rest) ∧
      src = body ++ rest := by
  induction src with
  | nil =>
    intro str
    exact ⟨[], [], by simp [readHexNumber], rfl⟩
  | cons c t ih =>
    intro str
    by_cases h : (hexVal c).2 = true ∨ c = '_'
    · obtain ⟨body, rest, h1, h2⟩ := ih (str ++ [c])
      refine ⟨c :: body, rest, ?_, by simp [h2]⟩
      simp only [readHexNumber]
      rw [if_pos h, h1]
      simp
    · refine ⟨[], c :: t, ?_, by simp⟩
      simp only [readHexNumber]
      rw [if_neg h]
      simp

theorem readFloatNumber_consumed (src : List Char) :
    ∀ (str : List Char) (mode : Nat) (tok : LexToken) (rest : List Char),
      readFloatNumber str mode src = .ok (tok, rest) →
      ∃ body, src = body ++ rest ∧ tok = ⟨.FloatNumber, String.mk (str ++ body)⟩ := by
  induction src with
  | nil =>
    intro str mode tok rest h
    rcases mode with _ | _ | _ | m
    · cases h
    · obtain ⟨h1, h2⟩ := ok_pair_inj h
      exact ⟨[], by rw [← h2]; rfl, by rw [← h1]; simp⟩
    · cases h
    · obtain ⟨h1, h2⟩ := ok_pair_inj h
      exact ⟨[], by rw [← h2]; rfl, by rw [← h1]; simp⟩
  | cons r t ih =>
    intro str mode tok rest h
    simp only [readFloatNumber] at h
    by_cases hd : '0' ≤ r ∧ r ≤ '9'
    · rw [if_pos hd] at h
      obtain ⟨body, hsrc, htok⟩ := ih (str ++ [r]) _ tok rest h
      exact ⟨r :: body, by simp [hsrc], by rw [htok]; simp⟩
    · rw [if_neg hd] at h
      by_cases he : r = 'e' ∨ r = 'E'
      · rw [if_pos he] at h
        rcases mode with _ | _ | _ | m
        · cases h
        · obtain ⟨body, hsrc, htok⟩ := ih (str ++ [r]) 2 tok rest h
          exact ⟨r :: body, by simp [hsrc], by rw [htok]; simp⟩
        · cases h
        · obtain ⟨h1, h2⟩ := ok_pair_inj h
          exact ⟨[], by rw [← h2]; rfl, by rw [← h1]; simp⟩
      · rw [if_neg he] at h
        rcases mode with _ | _ | _ | m
        · cases h
        · obtain ⟨h1, h2⟩ := ok_pair_inj h
          exact ⟨[], by rw [← h2]; rfl, by rw [← h1]; simp⟩
        · cases h
        · obtain ⟨h1, h2⟩ := ok_pair_inj h
          exact ⟨[], by rw [← h2]; rfl, by rw [← h1]; simp⟩

theorem readDecimalNumber_consumed (src : List Char) :
    ∀ (str : List Char) (tok : LexToken) (rest : List Char),
      readDecimalNumber str src = .ok (tok, rest) →
      ∃ body tt, (tt = TokenType.IntNumber ∨ tt = TokenType.FloatNumber) ∧
        src = body ++ rest ∧ tok = ⟨tt, String.mk (str ++ body)⟩ := by
  induction src with
  | nil =>
    intro str tok rest h
    obtain ⟨h1, h2⟩ := ok_pair_inj h
    exact ⟨[], .IntNumber, Or.inl rfl, by rw [← h2]; rfl, by rw [← h1]; simp⟩
  | cons r t ih =>
    intro str tok rest h
    simp only [readDecimalNumber] at h
    by_cases hd : '0' ≤ r ∧ r ≤ '9'
    · rw [if_pos hd] at h
      obtain ⟨body, tt, htt, hsrc, htok⟩ := ih (str ++ [r]) tok rest h
      exact ⟨r :: body, tt, htt, by simp [hsrc], by rw [htok]; simp⟩
    · rw [if_neg hd] at h
      by_cases hu : r = '_'
      · rw [if_pos hu] at h
        obtain ⟨body, tt, htt, hsrc, htok⟩ := ih (str ++ [r]) tok rest h
        exact ⟨r :: body, tt, htt, by simp [hsrc], by rw [htok]; simp⟩
      · rw [if_neg hu] at h
        by_cases hf : r = '.' ∨ r = 'e' ∨ r = 'E'
        · rw [if_pos hf] at h
          obtain ⟨body, hsrc, htok⟩ := readFloatNumber_consumed t (str ++ [r]) _ tok rest h
          exact ⟨r :: body, .FloatNumber, Or.inr rfl, by simp [hsrc], by rw [htok]; simp⟩
        · rw [if_neg hf] at h
          obtain ⟨h1, h2⟩ := ok_pair_inj h
          exact ⟨[], .IntNumber, Or.inl rfl, by rw [← h2]; rfl, by rw [← h1]; simp⟩

theorem readName_consumed (src : List Char) :
    ∀ (str : List Char) (tok : LexToken) (rest : List Char),
      readName str src = .ok (tok, rest) →
      ∃ body t, src = body ++ t ++ rest ∧ t.length ≤ 1 ∧
        tok = ⟨.Name, String.mk (str ++ body)⟩ := by
  induction src with
  | nil =>
    intro str tok rest h
    simp only [readName] at h
    by_cases hl : 16 < str.length
    · rw [if_pos hl] at h
      cases h
    · rw [if_neg hl] at h
      obtain ⟨h1, h2⟩ := ok_pair_inj h
      exact ⟨[], [], by rw [← h2]; rfl, by simp, by rw [← h1]; simp⟩
  | cons r t ih =>
    intro str tok rest h
    simp only [readName] at h
    by_cases hn : ('A' ≤ r ∧ r ≤ 'Z') ∨ ('a' ≤ r ∧ r ≤ 'z') ∨ ('0' ≤ r ∧ r ≤ '9') ∨ r = '_'
    · rw [if_pos hn] at h
      obtain ⟨body, t', hsrc, ht, htok⟩ := ih (str ++ [r]) tok rest h
      exact ⟨r :: body, t', by simp [hsrc, List.append_assoc], ht, by rw [htok]; simp⟩
    · rw [if_neg hn] at h
      by_cases hl : 16 < str.length
      · rw [if_pos hl] at h
        cases h
      · rw [if_neg hl] at h
        obtain ⟨h1, h2⟩ := ok_pair_inj h
        exact ⟨[], [r], by rw [← h2]; rfl, by simp, by rw [← h1]; simp⟩

theorem readColour_consumed (n : Nat) :
    ∀ (src str : List Char) (tok : LexToken) (rest : List Char),
      readColour str n src = .ok (tok, rest) →
      ∃ body, body.length = n ∧ src = body ++ rest ∧
        tok = ⟨.Colour, String.mk (str ++ body)⟩ := by
  induction n with
  | zero =>
    intro src str tok rest h
    obtain ⟨h1, h2⟩ := ok_pair_inj h
    exact ⟨[], rfl, by rw [← h2]; rfl, by rw [← h1]; simp⟩
  | succ m ih =>
    intro src str tok rest h
    cases src with
    | nil =>
      have : readColour str (m + 1) [] =
          .error (.invalidColour (String.mk (str ++ ['\x00']))) := rfl
      rw [this] at h
      cases h
    | cons c t =>
      simp only [readColour, nextRune] at h
      by_cases hx : (hexVal c).2 = true
      · rw [if_pos hx] at h
        obtain ⟨body, hlen, hsrc, htok⟩ := ih t (str ++ [c]) tok rest h
        exact ⟨c :: body, by simp [hlen], by simp [hsrc], by rw [htok]; simp⟩
      · rw [if_neg hx] at h
        cases h

theorem unicodeHexLoop_sound (k : Nat) :
    ∀ (chars : String) (res : Nat) (src : List Char) (res' : Nat) (chars' : String)
      (rest : List Char), unicodeHexLoop k chars res src = .ok (res', chars', rest) →
    ∃ hs, hs.length = k ∧ (∀ c ∈ hs, (hexVal c).2 = true) ∧ src = hs ++ rest ∧
      res' = hs.foldl (fun a c => a * 16 + (hexVal c).1) res := by
  induction k with
  | zero =>
    intro chars res src res' chars' rest h
    simp only [unicodeHexLoop] at h
    obtain ⟨h1, h2, h3⟩ : res = res' ∧ chars = chars' ∧ src = rest := by
      injection h with h'
      injection h' with ha h''
      injection h'' with hb hc
      exact ⟨ha, hb, hc⟩
    exact ⟨[], rfl, by simp, by rw [h3]; rfl, by rw [h1]; rfl⟩
  | succ k ih =>
    intro chars res src res' chars' rest h
    cases src with
    | nil =>
      have : unicodeHexLoop (k + 1) chars res [] =
          .error (.invalidUnicodeEscape chars) := rfl
      rw [this] at h
      cases h
    | cons c t =>
      simp only [unicodeHexLoop, nextRune] at h
      rcases hv : hexVal c with ⟨v, b⟩
      rw [hv] at h
      cases b with
      | false => simp at h
      | true =>
        simp only [if_pos rfl] at h
        obtain ⟨hs, hlen, hall, hsrc, hres⟩ := ih (chars.push c) (res * 16 + v) t res' chars' rest h
        refine ⟨c :: hs, by simp [hlen], ?_, by simp [hsrc], ?_⟩
        · intro x hx
          rcases List.mem_cons.mp hx with rfl | hx'
          · rw [hv]
          · exact hall x hx'
        · rw [hres]
          simp only [List.foldl_cons, hv]

theorem unicodeHex_sound (pre : String) (src : List Char) (n : Nat) (rest : List Char)
    (h : unicodeHex pre src = .ok (n, rest)) :
    ∃ hs, (hs.length = 4 ∨ hs.length = 6) ∧ (∀ c ∈ hs, (hexVal c).2 = true) ∧
      src = hs ++ rest ∧ n = hexNum hs := by
  simp only [unicodeHex] at h
  rcases hl : unicodeHexLoop 4 pre 0 src with e | ⟨res, chars, src1⟩
  · rw [hl] at h
    cases h
  · rw [hl] at h
    obtain ⟨hs4, hlen4, hall4, hsrc4, hres4⟩ := unicodeHexLoop_sound 4 pre 0 src res chars src1 hl
    cases src1 with
    | nil =>
      simp only [nextRune] at h
      rcases hv : hexVal '\x00' with ⟨v, b⟩
      rw [hv] at h
      have hb : b = false := by
        have hnul : hexVal '\x00' = (0, false) := by decide
        rw [hnul] at hv
        cases hv
        rfl
      subst hb
      simp only [Bool.false_eq_true, if_false] at h
      obtain ⟨h1, h2⟩ := ok_pair_inj h
      exact ⟨hs4, Or.inl hlen4, hall4, by rw [hsrc4, ← h2], by rw [← h1, hres4]; rfl⟩
    | cons c1 t1 =>
      simp only [nextRune] at h
      rcases hv1 : hexVal c1 with ⟨v1, b1⟩
      rw [hv1] at h
      cases b1 with
      | false =>
        simp only [Bool.false_eq_true, if_false] at h
        obtain ⟨h1, h2⟩ := ok_pair_inj h
        exact ⟨hs4, Or.inl hlen4, hall4, by rw [hsrc4, ← h2], by rw [← h1, hres4]; rfl⟩
      | true =>
        simp only [if_pos rfl] at h
        cases t1 with
        | nil =>
          simp only [nextRune] at h
          rcases hv2 : hexVal '\x00' with ⟨v2, b2⟩
          rw [hv2] at h
          have hb2 : b2 = false := by
            have hnul : hexVal '\x00' = (0, false) := by decide
            rw [hnul] at hv2
            cases hv2
            rfl
          subst hb2
          simp at h
        | cons c2 t2 =>
          simp only [nextRune] at h
          rcases hv2 : hexVal c2 with ⟨v2, b2⟩
          rw [hv2] at h
          cases b2 with
          | false => simp at h
          | true =>
            simp only [if_pos rfl] at h
            obtain ⟨h1, h2⟩ := ok_pair_inj h
            refine ⟨hs4 ++ [c1, c2], Or.inr (by simp [hlen4]), ?_, ?_, ?_⟩
            · intro x hx
              rcases List.mem_append.mp hx with hx' | hx'
              · exact hall4 x hx'
              · rcases List.mem_cons.mp hx' with rfl | hx''
                · rw [hv1]
                · rcases List.mem_cons.mp hx'' with rfl | hx'''
                  · rw [hv2]
                  · cases hx'''
            · rw [hsrc4, ← h2]
              simp
            · rw [← h1, hres4]
              simp only [hexNum, List.foldl_append, List.foldl_cons, List.foldl_nil, hv1, hv2]

theorem escapedChar_sound (c : Char) (t : List Char) (n : Nat) (esc : Bool) (rest : List Char)
    (h : escapedChar (c :: t) = .ok (n, esc, rest)) :
    ∃ u, c :: t = u ++ rest ∧ EscDecodes u n esc := by
  simp only [escapedChar, nextRune] at h
  by_cases hc : c = '\\'
  · rw [if_pos hc] at h
    subst hc
    cases t with
    | nil => simp at h
    | cons c2 t2 =>
      simp only [nextRune] at h
      by_cases h2 : c2 = '\\'
      · rw [if_pos h2] at h
        subst h2
        injection h with h'
        injection h' with ha h''
        injection h'' with hb hc'
        exact ⟨['\\', '\\'], by rw [← hc']; rfl, by rw [← ha, ← hb]; exact EscDecodes.backslashEsc⟩
      · rw [if_neg h2] at h
        by_cases h3 : c2 = '\''
        · rw [if_pos h3] at h
          subst h3
          injection h with h'
          injection h' with ha h''
          injection h'' with hb hc'
          exact ⟨['\\', '\''], by rw [← hc']; rfl, by rw [← ha, ← hb]; exact EscDecodes.quoteEsc⟩
        · rw [if_neg h3] at h
          by_cases h4 : c2 = 'n'
          · rw [if_pos h4] at h
            subst h4
            injection h with h'
            injection h' with ha h''
            injection h'' with hb hc'
            exact ⟨['\\', 'n'], by rw [← hc']; rfl, by rw [← ha, ← hb]; exact EscDecodes.newlineEsc⟩
          · rw [if_neg h4] at h
            by_cases h5 : c2 = 'u'
            · rw [if_pos h5] at h
              subst h5
              rcases hu : unicodeHex "\\u" t2 with e | ⟨m, rest3⟩
              · rw [hu] at h
                cases h
              · rw [hu] at h
                injection h with h'
                injection h' with ha h''
                injection h'' with hb hc'
                obtain ⟨hs, hlen, hall, hsrc, hval⟩ := unicodeHex_sound "\\u" t2 m rest3 hu
                refine ⟨'\\' :: 'u' :: hs, ?_, ?_⟩
                · rw [← hc', hsrc]
                  simp
                · rw [← ha, ← hb, hval]
                  exact EscDecodes.uEsc hs hlen hall
            · rw [if_neg h5] at h
              by_cases h6 : c2 = 'U'
              · rw [if_pos h6] at h
                subst h6
                cases t2 with
                | nil => simp at h
                | cons c3 t3 =>
                  simp only [nextRune] at h
                  by_cases h7 : c3 = '+'
                  · rw [if_pos h7] at h
                    subst h7
                    rcases hu : unicodeHex "\\U+" t3 with e | ⟨m, rest4⟩
                    · rw [hu] at h
                      cases h
                    · rw [hu] at h
                      injection h with h'
                      injection h' with ha h''
                      injection h'' with hb hc'
                      obtain ⟨hs, hlen, hall, hsrc, hval⟩ := unicodeHex_sound "\\U+" t3 m rest4 hu
                      refine ⟨'\\' :: 'U' :: '+' :: hs, ?_, ?_⟩
                      · rw [← hc', hsrc]
                        simp
                      · rw [← ha, ← hb, hval]
                        exact EscDecodes.bigUEsc hs hlen hall
                  · rw [if_neg h7] at h
                    cases h
              · rw [if_neg h6] at h
                cases h
  · rw [if_neg hc] at h
    injection h with h'
    injection h' with ha h''
    injection h'' with hb hc'
    exact ⟨[c], by rw [← hc']; rfl, by rw [← ha, ← hb]; exact EscDecodes.plain c hc⟩

theorem readString_sound_aux (N : Nat) :
    ∀ (src : List Char), src.length ≤ N →
    ∀ (str : List Char) (tok : LexToken) (rest : List Char),
      readString str src = .ok (tok, rest) →
      ∃ units : List (List Char × Nat × Bool),
        src = (units.map (fun p => p.1)).flatten ++ rest ∧
        tok.tokenType = .Str ∧
        tok.token.toList = str ++ units.map (fun p => goWriteRune p.2.1) ∧
        ∀ p ∈ units, EscDecodes p.1 p.2.1 p.2.2 := by
  induction N with
  | zero =>
    intro src hle str tok rest h
    have hnil : src = [] := List.length_eq_zero.mp (Nat.le_zero.mp hle)
    subst hnil
    rw [readString_eofErr str [] false [] escapedChar_nil] at h
    cases h
  | succ N ih =>
    intro src hle str tok rest h
    rcases hec : escapedChar src with e | ⟨n, esc, rest1⟩
    · rw [readString_err _ _ _ hec] at h
      cases h
    · by_cases hctl : n < 32 ∧ n ≠ 13 ∧ n ≠ 10
      · by_cases h0 : n = 0
        · subst h0
          rw [readString_eofErr _ _ _ _ hec] at h
          cases h
        · rw [readString_ctlErr _ _ _ _ _ hec hctl h0] at h
          cases h
      · have hsrc : src ≠ [] := by
          rintro rfl
          rw [escapedChar_nil] at hec
          injection hec with h'
          injection h' with ha _
          exact hctl (by rw [← ha]; decide)
        rcases src with _ | ⟨c, t⟩
        · exact absurd rfl hsrc
        obtain ⟨u, hu1, hu2⟩ := escapedChar_sound c t n esc rest1 hec
        by_cases hq : n = 39 ∧ esc = false
        · obtain ⟨hn39, hescf⟩ := hq
          subst hn39
          subst hescf
          rw [readString_done _ _ _ hec] at h
          obtain ⟨h1, h2⟩ := ok_pair_inj h
          refine ⟨[(u, 39, false)], ?_, ?_, ?_, ?_⟩
          · rw [← h2, hu1]
            simp
          · rw [← h1]
          · rw [← h1]
            have hg : goWriteRune 39 = '\'' := by decide
            simp [hg]
          · intro p hp
            rw [List.mem_singleton] at hp
            subst hp
            exact hu2
        · rw [readString_step _ _ _ _ _ hec hctl hq] at h
          have hlt : rest1.length < (c :: t).length := by
            rcases escapedChar_length_lt _ _ _ _ hec with h' | h'
            · exact absurd h' (by simp)
            · exact h'
          obtain ⟨units, hs1, hs2, hs3, hs4⟩ := ih rest1
            (by simp only [List.length_cons] at hle hlt; omega)
            (str ++ [goWriteRune n]) tok rest h
          refine ⟨(u, n, esc) :: units, ?_, hs2, ?_, ?_⟩
          · rw [hu1, hs1]
            simp [List.append_assoc]
          · rw [hs3]
            simp
          · intro p hp
            rcases List.mem_cons.mp hp with rfl | hp'
            · exact hu2
            · exact hs4 p hp'

theorem readString_sound (src str : List Char) (tok : LexToken) (rest : List Char)
    (h : readString str src = .ok (tok, rest)) :
    ∃ units : List (List Char × Nat × Bool),
      src = (units.map (fun p => p.1)).flatten ++ rest ∧
      tok.tokenType = .Str ∧
      tok.token.toList = str ++ units.map (fun p => goWriteRune p.2.1) ∧
      ∀ p ∈ units, EscDecodes p.1 p.2.1 p.2.2 :=
  readString_sound_aux src.length src le_rfl str tok rest h

/-- Claim C1 (amended): every token Lex returns consumes a prefix of the
input (the rest is returned untouched), and the token's text equals the
literal characters consumed, with these exceptions: newline tokens
canonicalize "\n", "\r", "\r\n" to the text "\n"; End-of-Input and Undefined
tokens have empty text though they may consume input; name tokens also
consume (and discard) the rune that ended the name; and string tokens record
for each consumed logical character its DECODED value — an escape sequence
contributes the decoded character, not the escaped source form. -/
theorem claim1_token_text :
    ∀ (src : List Char) (tok : LexToken) (rest : List Char),
      Lex src = .ok (tok, rest) →
      ∃ consumed, src = consumed ++ rest ∧ ConsumedSpec consumed tok := by
  intro src tok rest h
  cases src with
  | nil =>
    obtain ⟨ha, hb⟩ := ok_pair_inj h
    subst ha
    subst hb
    exact ⟨[], rfl, rfl, Or.inl rfl⟩
  | cons r rest0 =>
    simp only [Lex] at h
    by_cases h1 : r = '\x00'
    · rw [if_pos h1] at h
      subst h1
      obtain ⟨ha, hb⟩ := ok_pair_inj h
      subst ha
      subst hb
      exact ⟨['\x00'], rfl, rfl, Or.inr rfl⟩
    rw [if_neg h1] at h
    by_cases h2 : r = '\n'
    · rw [if_pos h2] at h
      subst h2
      obtain ⟨ha, hb⟩ := ok_pair_inj h
      subst ha
      subst hb
      exact ⟨['\n'], rfl, rfl, Or.inl rfl⟩
    rw [if_neg h2] at h
    by_cases h3 : r = '\r'
    · rw [if_pos h3] at h
      subst h3
      cases rest0 with
      | nil =>
        simp only [nextRune, Char.reduceEq, reduceIte] at h
        obtain ⟨ha, hb⟩ := ok_pair_inj h
        subst ha
        subst hb
        exact ⟨['\r'], rfl, rfl, Or.inr (Or.inl rfl)⟩
      | cons c2 t2 =>
        simp only [nextRune] at h
        by_cases hc2 : c2 = '\n'
        · subst hc2
          rw [if_pos rfl] at h
          obtain ⟨ha, hb⟩ := ok_pair_inj h
          subst ha
          subst hb
          exact ⟨['\r', '\n'], rfl, rfl, Or.inr (Or.inr rfl)⟩
        · rw [if_neg hc2] at h
          obtain ⟨ha, hb⟩ := ok_pair_inj h
          subst ha
          subst hb
          exact ⟨['\r'], rfl, rfl, Or.inr (Or.inl rfl)⟩
    rw [if_neg h3] at h
    by_cases h4 : r = '#'
    · rw [if_pos h4] at h
      subst h4
      obtain ⟨body, hlen, hsrc, htok⟩ := readColour_consumed 6 rest0 ['#'] tok rest h
      subst htok
      exact ⟨'#' :: body, by rw [hsrc]; rfl, rfl⟩
    rw [if_neg h4] at h
    by_cases h5 : r = '%'
    · rw [if_pos h5] at h
      subst h5
      cases rest0 with
      | nil =>
        simp only [nextRune, Char.reduceEq, reduceIte] at h
        obtain ⟨ha, hb⟩ := ok_pair_inj h
        subst ha
        subst hb
        exact ⟨['%'], rfl, rfl⟩
      | cons c2 t2 =>
        simp only [nextRune] at h
        by_cases hc2 : c2 = '='
        · subst hc2
          rw [if_pos rfl] at h
          obtain ⟨ha, hb⟩ := ok_pair_inj h
          subst ha
          subst hb
          exact ⟨['%', '='], rfl, rfl⟩
        · rw [if_neg hc2] at h
          obtain ⟨ha, hb⟩ := ok_pair_inj h
          subst ha
          subst hb
          exact ⟨['%'], rfl, rfl⟩
    rw [if_neg h5] at h
    by_cases h6 : r = '\''
    · rw [if_pos h6] at h
      subst h6
      obtain ⟨units, hs1, hs2, hs3, hs4⟩ := readString_sound rest0 ['\''] tok rest h
      obtain ⟨tt, text⟩ := tok
      simp only [LexToken.tokenType] at hs2
      subst hs2
      refine ⟨'\'' :: (units.map (fun p => p.1)).flatten, by rw [hs1]; rfl, ?_⟩
      exact ⟨units, rfl, hs3, hs4⟩
    rw [if_neg h6] at h
    by_cases h7 : r = '('
    · rw [if_pos h7] at h
      subst h7
      obtain ⟨ha, hb⟩ := ok_pair_inj h
      subst ha
      subst hb
      exact ⟨['('], rfl, rfl⟩
    rw [if_neg h7] at h
    by_cases h8 : r = ')'
    · rw [if_pos h8] at h
      subst h8
      obtain ⟨ha, hb⟩ := ok_pair_inj h
      subst ha
      subst hb
      exact ⟨[')'], rfl, rfl⟩
    rw [if_neg h8] at h
    by_cases h9 : r = '*'
    · rw [if_pos h9] at h
      subst h9
      cases rest0 with
      | nil =>
        simp only [nextRune, Char.reduceEq, reduceIte] at h
        obtain ⟨ha, hb⟩ := ok_pair_inj h
        subst ha
        subst hb
        exact ⟨['*'], rfl, rfl⟩
      | cons c2 t2 =>
        simp only [nextRune] at h
        by_cases hc2 : c2 = '='
        · subst hc2
          rw [if_pos rfl] at h
          obtain ⟨ha, hb⟩ := ok_pair_inj h
          subst ha
          subst hb
          exact ⟨['*', '='], rfl, rfl⟩
        · rw [if_neg hc2] at h
          obtain ⟨ha, hb⟩ := ok_pair_inj h
          subst ha
          subst hb
          exact ⟨['*'], rfl, rfl⟩
    rw [if_neg h9] at h
    by_cases h10 : r = '+'
    · rw [if_pos h10] at h
      subst h10
      cases rest0 with
      | nil =>
        simp only [nextRune, Char.reduceEq, reduceIte] at h
        obtain ⟨ha, hb⟩ := ok_pair_inj h
        subst ha
        subst hb
        exact ⟨['+'], rfl, rfl⟩
      | cons c2 t2 =>
        simp only [nextRune] at h
        by_cases hc2 : c2 = '='
        · subst hc2
          rw [if_pos rfl] at h
          obtain ⟨ha, hb⟩ := ok_pair_inj h
          subst ha
          subst hb
          exact ⟨['+', '='], rfl, rfl⟩
        · rw [if_neg hc2] at h
          by_cases hc2' : c2 = '+'
          · subst hc2'
            rw [if_pos rfl] at h
            obtain ⟨ha, hb⟩ := ok_pair_inj h
            subst ha
            subst hb
            exact ⟨['+', '+'], rfl, rfl⟩
          · rw [if_neg hc2'] at h
            obtain ⟨ha, hb⟩ := ok_pair_inj h
            subst ha
            subst hb
            exact ⟨['+'], rfl, rfl⟩
    rw [if_neg h10] at h
    by_cases h11 : r = ','
    · rw [if_pos h11] at h
      subst h11
      obtain ⟨ha, hb⟩ := ok_pair_inj h
      subst ha
      subst hb
      exact ⟨[','], rfl, rfl⟩
    rw [if_neg h11] at h
    by_cases h12 : r = '-'
    · rw [if_pos h12] at h
      subst h12
      cases rest0 with
      | nil =>
        simp only [nextRune, Char.reduceEq, reduceIte] at h
        obtain ⟨ha, hb⟩ := ok_pair_inj h
        subst ha
        subst hb
        exact ⟨['-'], rfl, rfl⟩
      | cons c2 t2 =>
        simp only [nextRune] at h
        by_cases hc2 : c2 = '='
        · subst hc2
          rw [if_pos rfl] at h
          obtain ⟨ha, hb⟩ := ok_pair_inj h
          subst ha
          subst hb
          exact ⟨['-', '='], rfl, rfl⟩
        · rw [if_neg hc2] at h
          by_cases hc2' : c2 = '-'
          · subst hc2'
            rw [if_pos rfl] at h
            obtain ⟨ha, hb⟩ := ok_pair_inj h
            subst ha
            subst hb
            exact ⟨['-', '-'], rfl, rfl⟩
          · rw [if_neg hc2'] at h
            obtain ⟨ha, hb⟩ := ok_pair_inj h
            subst ha
            subst hb
            exact ⟨['-'], rfl, rfl⟩
    rw [if_neg h12] at h
    by_cases h13 : r = '/'
    · rw [if_pos h13] at h
      subst h13
      cases rest0 with
      | nil =>
        simp only [nextRune, Char.reduceEq, reduceIte] at h
        obtain ⟨ha, hb⟩ := ok_pair_inj h
        subst ha
        subst hb
        exact ⟨['/'], rfl, rfl⟩
      | cons c2 t2 =>
        simp only [nextRune] at h
        by_cases hc2 : c2 = '='
        · subst hc2
          rw [if_pos rfl] at h
          obtain ⟨ha, hb⟩ := ok_pair_inj h
          subst ha
          subst hb
          exact ⟨['/', '='], rfl, rfl⟩
        · rw [if_neg hc2] at h
          obtain ⟨ha, hb⟩ := ok_pair_inj h
          subst ha
          subst hb
          exact ⟨['/'], rfl, rfl⟩
    rw [if_neg h13] at h
    by_cases h14 : r = ':'
    · rw [if_pos h14] at h
      subst h14
      obtain ⟨ha, hb⟩ := ok_pair_inj h
      subst ha
      subst hb
      exact ⟨[':'], rfl, rfl⟩
    rw [if_neg h14] at h
    by_cases h15 : r = '<'
    · rw [if_pos h15] at h
      subst h15
      obtain ⟨ha, hb⟩ := ok_pair_inj h
      subst ha
      subst hb
      exact ⟨['<'], rfl, rfl⟩
    rw [if_neg h15] at h
    by_cases h16 : r = '='
    · rw [if_pos h16] at h
      subst h16
      obtain ⟨ha, hb⟩ := ok_pair_inj h
      subst ha
      subst hb
      exact ⟨['='], rfl, rfl⟩
    rw [if_neg h16] at h
    by_cases h17 : r = '>'
    · rw [if_pos h17] at h
      subst h17
      obtain ⟨ha, hb⟩ := ok_pair_inj h
      subst ha
      subst hb
      exact ⟨['>'], rfl, rfl⟩
    rw [if_neg h17] at h
    by_cases h18 : r = '['
    · rw [if_pos h18] at h
      subst h18
      obtain ⟨ha, hb⟩ := ok_pair_inj h
      subst ha
      subst hb
      exact ⟨['['], rfl, rfl⟩
    rw [if_neg h18] at h
    by_cases h19 : r = ']'
    · rw [if_pos h19] at h
      subst h19
      obtain ⟨ha, hb⟩ := ok_pair_inj h
      subst ha
      subst hb
      exact ⟨[']'], rfl, rfl⟩
    rw [if_neg h19] at h
    by_cases h20 : r = '\x7b'
    · rw [if_pos h20] at h
      subst h20
      obtain ⟨ha, hb⟩ := ok_pair_inj h
      subst ha
      subst hb
      exact ⟨['\x7b'], rfl, rfl⟩
    rw [if_neg h20] at h
    by_cases h21 : r = '\x7d'
    · rw [if_pos h21] at h
      subst h21
      obtain ⟨ha, hb⟩ := ok_pair_inj h
      subst ha
      subst hb
      exact ⟨['\x7d'], rfl, rfl⟩
    rw [if_neg h21] at h
    by_cases h22 : r = '0'
    · rw [if_pos h22] at h
      subst h22
      cases rest0 with
      | nil =>
        simp only [nextRune, Char.reduceEq, Char.reduceLE, false_and, and_false,
          reduceIte] at h
        obtain ⟨ha, hb⟩ := ok_pair_inj h
        subst ha
        subst hb
        exact ⟨['0'], rfl, rfl, Or.inl rfl⟩
      | cons c2 t2 =>
        simp only [nextRune] at h
        by_cases hcb : c2 = 'b'
        · subst hcb
          rw [if_pos rfl] at h
          obtain ⟨body, rest', hbin, hsrc⟩ := readBinaryNumber_consumed t2 ['0', 'b']
          rw [hbin] at h
          obtain ⟨ha, hb⟩ := ok_pair_inj h
          subst ha
          subst hb
          exact ⟨'0' :: 'b' :: body, by rw [hsrc]; rfl, rfl⟩
        · rw [if_neg hcb] at h
          by_cases hcx : c2 = 'x'
          · subst hcx
            rw [if_pos rfl] at h
            obtain ⟨body, rest', hhex, hsrc⟩ := readHexNumber_consumed t2 ['0', 'x']
            rw [hhex] at h
            obtain ⟨ha, hb⟩ := ok_pair_inj h
            subst ha
            subst hb
            exact ⟨'0' :: 'x' :: body, by rw [hsrc]; rfl, rfl⟩
          · rw [if_neg hcx] at h
            by_cases hcd : '0' ≤ c2 ∧ c2 ≤ '9'
            · rw [if_pos hcd] at h
              obtain ⟨body, tt, htt, hsrc, htok⟩ :=
                readDecimalNumber_consumed (c2 :: t2) ['0'] tok rest h
              subst htok
              refine ⟨'0' :: body, by rw [hsrc]; rfl, ?_⟩
              rcases htt with rfl | rfl
              · rfl
              · rfl
            · rw [if_neg hcd] at h
              obtain ⟨ha, hb⟩ := ok_pair_inj h
              subst ha
              subst hb
              exact ⟨['0', c2], rfl, rfl, Or.inr rfl⟩
    rw [if_neg h22] at h
    by_cases h23 : '1' ≤ r ∧ r ≤ '9'
    · rw [if_pos h23] at h
      obtain ⟨body, tt, htt, hsrc, htok⟩ := readDecimalNumber_consumed rest0 [r] tok rest h
      subst htok
      refine ⟨r :: body, by rw [hsrc]; rfl, ?_⟩
      rcases htt with rfl | rfl
      · rfl
      · rfl
    rw [if_neg h23] at h
    by_cases h24 : ('A' ≤ r ∧ r ≤ 'Z') ∨ ('a' ≤ r ∧ r ≤ 'z')
    · rw [if_pos h24] at h
      obtain ⟨body, t', hsrc, ht, htok⟩ := readName_consumed rest0 [r] tok rest h
      subst htok
      refine ⟨r :: (body ++ t'), ?_, ?_⟩
      · rw [hsrc]
        simp [List.append_assoc]
      · exact ⟨t', ht, by simp⟩
    rw [if_neg h24] at h
    obtain ⟨ha, hb⟩ := ok_pair_inj h
    subst ha
    subst hb
    exact ⟨[r], rfl, rfl, Or.inl rfl⟩

/-- Claim C1 witness: the binary-integer token scanned from "0b10(" consumes
exactly its text "0b10", leaving "(". -/
theorem claim1_token_text_witness :
    ∃ consumed, "0b10(".toList = consumed ++ ['('] ∧
      ConsumedSpec consumed ⟨.IntNumber, "0b10"⟩ :=
  claim1_token_text "0b10(".toList ⟨.IntNumber, "0b10"⟩ ['('] rfl

/-- Claim C1 counterexample: lexing the four source characters quote,
backslash, 'n', quote produces a string token whose text is the three
characters quote, newline, quote — the decoded form — which differs from the
literal characters consumed, so the escaped source form is not preserved. -/
theorem claim1_counterexample :
    Lex ['\'', '\\', 'n', '\''] = .ok (⟨.Str, String.mk ['\'', '\n', '\'']⟩, []) ∧
    String.mk ['\'', '\n', '\''] ≠ String.mk ['\'', '\\', 'n', '\''] := by
  constructor
  · show readString ['\''] ['\\', 'n', '\''] = _
    rw [readString_step ['\''] _ 10 true ['\''] (by decide) (by decide) (by decide)]
    rw [readString_done _ _ [] (escapedChar_plain '\'' _ (by decide))]
    rfl
  · decide

end DrawParse
